import Mathlib

/-!
Shallow embedding of the SeaweedFS core pieces named by the specification:
the volume-copy gRPC service (`VolumeCopy`, `CopyFile`, `ReadVolumeFileStatus`,
`writeToFile`, `checkCopyFiles`), the HTTP handler helpers (`secure`,
`parseURLPath`), the `compact` CLI subcommand (`runCompact`), the volume-server
heartbeat loop, the master client (`KeepConnected` session), and the image
resizing helper (`Resized`).  Each definition is translated from the Go source;
external effects (files, gRPC streams, the imaging library) are represented by
explicit state or by environment parameters.
-/

namespace Seaweed

/- ===================== part_002: volume copy service ===================== -/

/-- A volume as seen by the copy service: its compaction revision and the
bytes of its `.dat` and `.idx` files (the volume owns open handles to exactly
these two files; `v.FileName()` is the path without extension, which is not
itself a file on disk). -/
structure Volume where
  compactionRevision : Nat
  datContent : List Nat
  idxContent : List Nat
  datModTimeSeconds : Nat
deriving DecidableEq

abbrev Store := List (Nat × Volume)

def getVolume : Store → Nat → Option Volume
  | [], _ => none
  | (i, v) :: rest, vid => if i = vid then some v else getVolume rest vid

/-- volume_server_pb.CopyFileRequest (fields used by the handler). -/
structure CopyFileRequest where
  volumeId : Nat
  isDatFile : Bool
  isIdxFile : Bool
  compactionRevision : Nat
  stopOffset : Nat
deriving DecidableEq

/-- volume_server_pb.ReadVolumeFileStatusResponse (fields used here). -/
structure ReadVolumeFileStatusResponse where
  volumeId : Nat
  datFileSize : Nat
  idxFileSize : Nat
  compactionRevision : Nat
  datFileTimestampSeconds : Nat
deriving DecidableEq

inductive CopyErr where
  | volumeNotFound
  | compacted
  | openFileFailed
deriving DecidableEq

def ReadVolumeFileStatus (store : Store) (volumeId : Nat) :
    Except CopyErr ReadVolumeFileStatusResponse :=
  match getVolume store volumeId with
  | none => .error .volumeNotFound
  | some v =>
      .ok ⟨volumeId, v.datContent.length, v.idxContent.length,
           v.compactionRevision, v.datModTimeSeconds⟩

def bufferSize : Nat := 1024 * 1024 * 2

/-- The send loop of `CopyFile`, with an explicit fuel that bounds the number
of iterations (each iteration consumes at least one byte of the file, so a
fuel of the file length is enough): read up to `bufferSize` bytes, truncate
the last chunk to the remaining `bytesToRead`, send, repeat; stop on EOF or
when `bytesToRead` reaches 0. -/
def copyChunksAux : Nat → List Nat → Nat → List (List Nat)
  | 0, _, _ => []
  | fuel + 1, content, toRead =>
    if toRead = 0 then []
    else if content.length = 0 then []
    else
      let r := min bufferSize content.length
      let s := min r toRead
      content.take s :: copyChunksAux fuel (content.drop r) (toRead - s)

def copyChunks (content : List Nat) (toRead : Nat) : List (List Nat) :=
  copyChunksAux content.length content toRead

/-- The file opened by the `CopyFile` handler: `v.FileName()` plus `.dat` when
`IsDatFile`, plus `.idx` when `IsIdxFile`; with neither flag the handler opens
the bare base name, and no such file exists on disk, so the open fails. -/
def openVolumeFile (v : Volume) (req : CopyFileRequest) : Option (List Nat) :=
  if req.isDatFile then some v.datContent
  else if req.isIdxFile then some v.idxContent
  else none

/-- The `CopyFile` gRPC handler: volume lookup, compaction-revision check,
open the requested file and stream chunks up to `StopOffset` bytes. -/
def CopyFile (store : Store) (req : CopyFileRequest) :
    Except CopyErr (List (List Nat)) :=
  match getVolume store req.volumeId with
  | none => .error .volumeNotFound
  | some v =>
      if v.compactionRevision ≠ req.compactionRevision then .error .compacted
      else
        match openVolumeFile v req with
        | none => .error .openFileFailed
        | some content => .ok (copyChunks content req.stopOffset)

/- Destination-side file system: an association list of files plus the set of
paths on which `os.OpenFile` fails (permissions and the like). -/
structure FileSys where
  files : List (String × List Nat)
  openFails : List String
deriving DecidableEq

def lookupFile : List (String × List Nat) → String → Option (List Nat)
  | [], _ => none
  | (n, c) :: rest, name => if n = name then some c else lookupFile rest name

def getFile (fs : FileSys) (name : String) : Option (List Nat) :=
  lookupFile fs.files name

def setFile (fs : FileSys) (name : String) (content : List Nat) : FileSys :=
  ⟨(name, content) :: fs.files, fs.openFails⟩

def removeFile (fs : FileSys) (name : String) : FileSys :=
  ⟨fs.files.filter (fun p => decide (p.fst ≠ name)), fs.openFails⟩

/-- A `CopyFile` client stream as observed by the destination: the chunks that
arrive successfully, and whether `Recv` then reports an error instead of EOF. -/
structure RecvStream where
  chunks : List (List Nat)
  recvErr : Bool
deriving DecidableEq

inductive WriteErr where
  | receiveFailed
deriving DecidableEq

/-- `writeToFile`: open-create-truncate the destination and write every chunk
received.  Mirrors the source exactly: when the open fails the function
returns nil (no error) without writing anything. -/
def writeToFile (stream : RecvStream) (fileName : String) (fs : FileSys) :
    FileSys × Option WriteErr :=
  if fileName ∈ fs.openFails then (fs, none)
  else
    let fs1 := setFile fs fileName stream.chunks.flatten
    if stream.recvErr then (fs1, some .receiveFailed) else (fs1, none)

inductive CheckErr where
  | statIdxFailed
  | idxSizeMismatch
  | statDatFailed
  | datSizeMismatch
deriving DecidableEq

/-- `checkCopyFiles`: stat both destination files and compare their sizes
with the sizes reported by the source. -/
def checkCopyFiles (originFileInf : ReadVolumeFileStatusResponse)
    (idxFileName datFileName : String) (fs : FileSys) : Option CheckErr :=
  match getFile fs idxFileName with
  | none => some .statIdxFailed
  | some c =>
      if originFileInf.idxFileSize ≠ c.length then some .idxSizeMismatch
      else
        match getFile fs datFileName with
        | none => some .statDatFailed
        | some d =>
            if originFileInf.datFileSize ≠ d.length then some .datSizeMismatch
            else none

/-- volume_server_pb.VolumeCopyRequest (fields used by the handler; the
source data node is modelled by passing the source store directly). -/
structure VolumeCopyRequest where
  volumeId : Nat
  collection : String
deriving DecidableEq

/-- Transport behaviour of the two `CopyFile` streams: `none` means the stream
delivers every chunk and ends with EOF; `some k` means `Recv` fails (for
example a mid-stream cancellation) after `k` chunks were delivered. -/
structure TransportEnv where
  idxCut : Option Nat
  datCut : Option Nat
deriving DecidableEq

def mkStream (chunks : List (List Nat)) (cut : Option Nat) : RecvStream :=
  match cut with
  | none => ⟨chunks, false⟩
  | some k => ⟨chunks.take k, true⟩

inductive CopyPhaseErr where
  | status (e : CopyErr)
  | startIdx (e : CopyErr)
  | writeIdx (e : WriteErr)
  | startDat (e : CopyErr)
  | writeDat (e : WriteErr)
deriving DecidableEq

inductive VCErr where
  | noSpaceLeft
  | copy (e : CopyPhaseErr)
  | check (e : CheckErr)
deriving DecidableEq

/-- storage.VolumeFileName: directory, optional collection prefix, volume id. -/
def volumeFileName (collection dir : String) (vid : Nat) : String :=
  dir ++ "/" ++ (if collection = "" then "" else collection ++ "_") ++ toString vid

/-- The closure passed to `operation.WithVolumeServerClient` inside
`VolumeCopy`: read the source file status, then stream the `.idx` file and the
`.dat` file into the destination files. -/
def copyPhase (src : Store) (req : VolumeCopyRequest) (env : TransportEnv)
    (idxFileName datFileName : String) (fs : FileSys) :
    FileSys × Except CopyPhaseErr ReadVolumeFileStatusResponse :=
  match ReadVolumeFileStatus src req.volumeId with
  | .error e => (fs, .error (.status e))
  | .ok volFileInfoResp =>
      match CopyFile src ⟨req.volumeId, false, true,
          volFileInfoResp.compactionRevision, volFileInfoResp.idxFileSize⟩ with
      | .error e => (fs, .error (.startIdx e))
      | .ok idxChunks =>
          match writeToFile (mkStream idxChunks env.idxCut) idxFileName fs with
          | (fs1, some e) => (fs1, .error (.writeIdx e))
          | (fs1, none) =>
              match CopyFile src ⟨req.volumeId, true, false,
                  volFileInfoResp.compactionRevision, volFileInfoResp.datFileSize⟩ with
              | .error e => (fs1, .error (.startDat e))
              | .ok datChunks =>
                  match writeToFile (mkStream datChunks env.datCut) datFileName fs1 with
                  | (fs2, some e) => (fs2, .error (.writeDat e))
                  | (fs2, none) => (fs2, .ok volFileInfoResp)

/-- The destination volume server: its local file system and the directory of
the location returned by `store.FindFreeLocation()` (none when no space). -/
structure LocalServer where
  fs : FileSys
  freeLocationDir : Option String
deriving DecidableEq

/-- The `VolumeCopy` gRPC handler.  Unmounting a present local volume and the
final mount do not touch the copied files and always succeed in this model.
On a copy-phase error both destination files are removed before returning;
a `checkCopyFiles` error is returned with the files left in place.  On success
the response carries `LastAppendAtNs` = dat timestamp seconds times 1e9. -/
def VolumeCopy (lsrv : LocalServer) (src : Store) (env : TransportEnv)
    (req : VolumeCopyRequest) : FileSys × Except VCErr Nat :=
  match lsrv.freeLocationDir with
  | none => (lsrv.fs, .error .noSpaceLeft)
  | some dir =>
      match copyPhase src req env
          (volumeFileName req.collection dir req.volumeId ++ ".idx")
          (volumeFileName req.collection dir req.volumeId ++ ".dat") lsrv.fs with
      | (fs1, .error e) =>
          (removeFile
              (removeFile fs1 (volumeFileName req.collection dir req.volumeId ++ ".idx"))
              (volumeFileName req.collection dir req.volumeId ++ ".dat"),
            .error (.copy e))
      | (fs1, .ok volFileInfoResp) =>
          match checkCopyFiles volFileInfoResp
              (volumeFileName req.collection dir req.volumeId ++ ".idx")
              (volumeFileName req.collection dir req.volumeId ++ ".dat") fs1 with
          | some e => (fs1, .error (.check e))
          | none => (fs1, .ok (volFileInfoResp.datFileTimestampSeconds * 1000000000))

deriving instance DecidableEq for Except

/- Concrete instances used by counterexamples and witnesses. -/

def dirD : String := "d"

def datName1 : String := "d/1.dat"

def idxName1 : String := "d/1.idx"

def c1Store : Store := [(1, ⟨0, [1], [2], 0⟩)]

/-- A CopyFile request with a matching compaction revision that selects
neither the `.dat` nor the `.idx` file. -/
def c1Req : CopyFileRequest := ⟨1, false, false, 0, 1⟩

def c1wStore : Store := [(2, ⟨5, [1, 2, 3], [4, 5], 0⟩)]

def c1wReq : CopyFileRequest := ⟨2, false, true, 5, 2⟩

def c2Src : Store := [(1, ⟨0, [1, 2, 3], [9], 4⟩)]

/-- Destination state for the C2 scenario: a stale 3-byte `.dat` file already
sits at the target path, and `os.OpenFile` fails on that path. -/
def c2Local : LocalServer := ⟨⟨[(datName1, [7, 7, 7])], [datName1]⟩, some dirD⟩

def c2Env : TransportEnv := ⟨none, none⟩

def c2Req : VolumeCopyRequest := ⟨1, ""⟩

def c3Local : LocalServer := ⟨⟨[], []⟩, some dirD⟩

def c3Src : Store := [(1, ⟨0, [1, 2, 3], [9], 7⟩)]

/-- The `.dat` stream is cancelled before any chunk arrives. -/
def c3Env : TransportEnv := ⟨none, some 0⟩

def c3Req : VolumeCopyRequest := ⟨1, ""⟩

def c9Src : Store := [(1, ⟨0, [1, 2, 3], [9], 7⟩)]

/-- Destination state for the C9 scenario: no file at the target `.dat` path
and `os.OpenFile` fails on that path. -/
def c9Local : LocalServer := ⟨⟨[], [datName1]⟩, some dirD⟩

def c9Env : TransportEnv := ⟨none, none⟩

def c9Req : VolumeCopyRequest := ⟨1, ""⟩

def c9wName : String := "x"

def c9wFs : FileSys := ⟨[], [c9wName]⟩

def c9wStream : RecvStream := ⟨[[1]], false⟩

/- ===================== volume_server.go: heartbeat loop ===================== -/

/-- Sleep between two iterations of the heartbeat loop in `NewVolumeServer`:
after a successful `store.Join()` the loop sleeps
`pulseSeconds * 1e3 * (1 + rand.Float32())` milliseconds; after a failed join
it sleeps `pulseSeconds * 1e3 * 0.25` milliseconds.  `jitter` stands for the
value drawn from `rand.Float32()`, in `[0, 1)`. -/
def heartbeatSleepMs (pulseSeconds : Nat) (joinOk : Bool) (jitter : ℚ) : ℚ :=
  if joinOk then (pulseSeconds : ℚ) * 1000 * (1 + jitter)
  else (pulseSeconds : ℚ) * 1000 * (25 / 100)

/-- The sequence of sleeps produced by the heartbeat loop on a given sequence
of join outcomes and jitter draws. -/
def heartbeatTrace (pulseSeconds : Nat) : List (Bool × ℚ) → List ℚ
  | [] => []
  | (joinOk, jitter) :: rest =>
      heartbeatSleepMs pulseSeconds joinOk jitter :: heartbeatTrace pulseSeconds rest

/- ===================== masterclient.go: KeepConnected ===================== -/

structure Location where
  url : String
  publicUrl : String
deriving DecidableEq

abbrev VidMap := Nat → List Location

/-- Modelled from the spec: `vidMap.addLocation` lives in wdclient/vidmap.go,
which is not among the sources; the spec describes the client map as a
volume-id → locations map to which a received location is added. -/
def addLocation (vm : VidMap) (vid : Nat) (loc : Location) : VidMap :=
  fun v => if v = vid then (if loc ∈ vm vid then vm vid else loc :: vm vid) else vm v

/-- Modelled from the spec: `vidMap.deleteLocation` lives in
wdclient/vidmap.go, which is not among the sources; it removes the given
location from the volume-id entry. -/
def deleteLocation (vm : VidMap) (vid : Nat) (loc : Location) : VidMap :=
  fun v =>
    if v = vid then (vm vid).filter (fun l => decide (l ≠ loc)) else vm v

/-- master_pb.VolumeLocation (fields used by the client). -/
structure VolumeLocationMsg where
  url : String
  publicUrl : String
  newVids : List Nat
  deletedVids : List Nat

/-- The body of the receive loop in `tryAllMasters`: on one received
`VolumeLocation`, add the location for every id in `NewVids`, then delete it
for every id in `DeletedVids`. -/
def applyVolumeLocation (vm : VidMap) (msg : VolumeLocationMsg) : VidMap :=
  msg.deletedVids.foldl
    (fun m v => deleteLocation m v ⟨msg.url, msg.publicUrl⟩)
    (msg.newVids.foldl (fun m v => addLocation m v ⟨msg.url, msg.publicUrl⟩) vm)

inductive SentMsg where
  | clientListen (name : String)
deriving DecidableEq

/-- One `KeepConnected` session of `tryAllMasters` against one master: the
client first sends `ClientListenRequest{Name}` (the only message it ever
sends), then folds every received `VolumeLocation` into its map until the
stream errors out. -/
def keepConnectedSession (name : String) (msgs : List VolumeLocationMsg)
    (vm : VidMap) : List SentMsg × VidMap :=
  ([.clientListen name], msgs.foldl applyVolumeLocation vm)

/- ===================== part_001: compact subcommand ===================== -/

inductive NeedleMapKind where
  | inMemory
  | levelDb
deriving DecidableEq

inductive CompactCall where
  | compact (preallocate : Int)
  | compact2
deriving DecidableEq

inductive CompactResult where
  | returnedFalse
  | fatalLoad
  | fatalCompact
  | returnedTrue
deriving DecidableEq

/-- Outcomes of the external calls made by `runCompact`
(`storage.NewVolume`, `v.Compact`, `v.Compact2`). -/
structure CompactEnv where
  loadErr : Bool
  compactErr : Bool
  compact2Err : Bool
deriving DecidableEq

/-- What `runCompact` did: which needle-map kind `NewVolume` was called with,
which compaction entry point ran, and how the command ended
(`fatalLoad`/`fatalCompact` stand for `util.LogFatalIfError`, which exits the
process with a non-zero status). -/
structure CompactTrace where
  loadedWith : Option NeedleMapKind
  called : Option CompactCall
  result : CompactResult
deriving DecidableEq

/-- `runCompact`: returns false when `-volumeId` is left at its default of
-1; otherwise loads the volume with an in-memory needle map and runs
`Compact(preallocateMB << 20)` when `-method` is 0 and `Compact2()`
otherwise. -/
def runCompact (volumeId method preallocateMB : Int) (env : CompactEnv) :
    CompactTrace :=
  if volumeId = -1 then ⟨none, none, .returnedFalse⟩
  else
    if env.loadErr then ⟨some .inMemory, none, .fatalLoad⟩
    else if method = 0 then
      if env.compactErr then
        ⟨some .inMemory, some (.compact (preallocateMB * 1048576)), .fatalCompact⟩
      else ⟨some .inMemory, some (.compact (preallocateMB * 1048576)), .returnedTrue⟩
    else
      if env.compact2Err then ⟨some .inMemory, some .compact2, .fatalCompact⟩
      else ⟨some .inMemory, some .compact2, .returnedTrue⟩

/- ===================== part_000: secure wrapper ===================== -/

/-- An HTTP request as seen by the whitelist guard: the host part of
`r.RemoteAddr`, or `none` when `net.SplitHostPort` fails. -/
structure HttpRequest where
  remoteHost : Option String
deriving DecidableEq

inductive HandlerResponse where
  | fromHandler (body : String)
  | errorJson (msg : String)
deriving DecidableEq

/-- The `secure` wrapper: with an empty whitelist every request reaches the
wrapped handler `f`; otherwise `f` runs only when the parsed remote host
matches a whitelisted IP, and every other request gets the JSON error
(with the empty host when `SplitHostPort` failed). -/
def secure (whiteList : List String) (f : HttpRequest → String)
    (r : HttpRequest) : HandlerResponse :=
  if whiteList.isEmpty then .fromHandler (f r)
  else
    match r.remoteHost with
    | some host =>
        if host ∈ whiteList then .fromHandler (f r)
        else .errorJson ("No write permisson from " ++ host)
    | none => .errorJson ("No write permisson from " ++ "")

/- ===================== resizing.go: Resized ===================== -/

/-- A decoded image: its bounds and an abstract identity. -/
structure GoImage where
  width : Int
  height : Int
  tag : Nat
deriving DecidableEq

/-- The external imaging machinery (`image.Decode`, `imaging.Thumbnail`,
`imaging.Resize`, the three encoders), taken as an arbitrary environment. -/
structure ImagingEnv where
  decode : List Nat → Option GoImage
  thumbnail : GoImage → Int → Int → GoImage
  resize : GoImage → Int → Int → GoImage
  encodePng : GoImage → List Nat
  encodeJpeg : GoImage → List Nat
  encodeGif : GoImage → List Nat

/-- The encode switch at the end of `Resized`: an unknown extension leaves
the buffer empty. -/
def encodeBuf (env : ImagingEnv) (ext : String) (img : GoImage) : List Nat :=
  if ext = ".png" then env.encodePng img
  else if ext = ".jpg" ∨ ext = ".jpeg" then env.encodeJpeg img
  else if ext = ".gif" then env.encodeGif img
  else []

/-- `Resized`, instrumented with whether the resize branch ran.  Mirrors the
source: identity when both requested dimensions are 0 or decoding fails;
resize (or thumbnail for a square request on a non-square source) only when
the source strictly exceeds a nonzero requested dimension. -/
def ResizedT (env : ImagingEnv) (ext : String) (data : List Nat)
    (width height : Int) : (List Nat × Int × Int) × Bool :=
  if width = 0 ∧ height = 0 then ((data, 0, 0), false)
  else
    match env.decode data with
    | none => ((data, 0, 0), false)
    | some srcImage =>
        if (srcImage.width > width ∧ width ≠ 0) ∨
            (srcImage.height > height ∧ height ≠ 0) then
          if width = height ∧ srcImage.width ≠ srcImage.height then
            ((encodeBuf env ext (env.thumbnail srcImage width height),
              (env.thumbnail srcImage width height).width,
              (env.thumbnail srcImage width height).height), true)
          else
            ((encodeBuf env ext (env.resize srcImage width height),
              (env.resize srcImage width height).width,
              (env.resize srcImage width height).height), true)
        else ((data, srcImage.width, srcImage.height), false)

def Resized (env : ImagingEnv) (ext : String) (data : List Nat)
    (width height : Int) : List Nat × Int × Int :=
  (ResizedT env ext data width height).fst

/- ===================== part_000: parseURLPath ===================== -/

/-- strings.Count for a single-character separator. -/
def countChar : List Char → Char → Nat
  | [], _ => 0
  | a :: rest, c => (if a = c then 1 else 0) + countChar rest c

/-- strings.Split for a single-character separator. -/
def goSplit : List Char → Char → List (List Char)
  | [], _ => [[]]
  | a :: rest, sep =>
    if a = sep then [] :: goSplit rest sep
    else
      match goSplit rest sep with
      | [] => [[a]]
      | g :: gs => (a :: g) :: gs

/-- strings.LastIndex for a single-character needle: the index of the last
occurrence, or -1. -/
def goLastIndex : List Char → Char → Int
  | [], _ => -1
  | a :: rest, c =>
    let r := goLastIndex rest c
    if r ≥ 0 then r + 1 else if a = c then 0 else -1

/-- A Go slice expression `s[a:b]`: defined when `0 ≤ a ≤ b ≤ len(s)`,
a bounds panic otherwise. -/
def goSlice (s : List Char) (a b : Int) : Option (List Char) :=
  if 0 ≤ a ∧ a ≤ b ∧ b ≤ (s.length : Int) then
    some ((s.drop a.toNat).take (b.toNat - a.toNat))
  else none

/-- A Go slice expression `s[a:]`. -/
def goSliceFrom (s : List Char) (a : Int) : Option (List Char) :=
  goSlice s a (s.length : Int)

/-- filepath.Ext on a piece with no path separator: the suffix from the
final dot (including a dot at position 0), empty when there is no dot. -/
def filepathExt (s : List Char) : List Char :=
  if 0 ≤ goLastIndex s '.' then s.drop (goLastIndex s '.').toNat else []

structure UrlPath where
  vid : List Char
  fid : List Char
  filename : List Char
  ext : List Char
  isVolumeIdOnly : Bool
deriving DecidableEq

/-- `parseURLPath`, switching on the number of slashes.  The default branch
mirrors the source exactly, including its use of indices computed relative to
`path[sepIndex:]` as absolute indices into `path`, and `none` models the
bounds panic of a Go slice expression with an out-of-range index (for
example a path whose last dot precedes its last comma). -/
def parseURLPath (path : List Char) : Option UrlPath :=
  if countChar path '/' = 3 then
    some ⟨(goSplit path '/').getD 1 [], (goSplit path '/').getD 2 [],
      (goSplit path '/').getD 3 [], filepathExt ((goSplit path '/').getD 3 []),
      false⟩
  else if countChar path '/' = 2 then
    if 0 < goLastIndex ((goSplit path '/').getD 2 []) '.' then
      some ⟨(goSplit path '/').getD 1 [],
        ((goSplit path '/').getD 2 []).take
          (goLastIndex ((goSplit path '/').getD 2 []) '.').toNat,
        [],
        ((goSplit path '/').getD 2 []).drop
          (goLastIndex ((goSplit path '/').getD 2 []) '.').toNat,
        false⟩
    else
      some ⟨(goSplit path '/').getD 1 [], (goSplit path '/').getD 2 [], [], [],
        false⟩
  else
    match goSliceFrom path (goLastIndex path '/') with
    | none => none
    | some tail =>
      if goLastIndex tail ',' ≤ 0 then
        (goSliceFrom path (goLastIndex path '/' + 1)).map
          (fun vid => ⟨vid, [], [], [], true⟩)
      else
        match goSlice path (goLastIndex path '/' + 1) (goLastIndex tail ',') with
        | none => none
        | some vid =>
            match goSliceFrom path (goLastIndex tail ',' + 1) with
            | none => none
            | some fid0 =>
                if 0 < goLastIndex tail '.' then
                  match goSlice path (goLastIndex tail ',' + 1)
                      (goLastIndex tail '.') with
                  | none => none
                  | some fid1 =>
                      match goSliceFrom path (goLastIndex tail '.') with
                      | none => none
                      | some ext => some ⟨vid, fid1, [], ext, false⟩
                else some ⟨vid, fid0, [], [], false⟩

/- Concrete instances for the remaining witnesses. -/

def c8BadPath : List Char := ("/3/.gz").toList

def c8GoodPath : List Char := ("/3/01.png").toList

def c5Name : String := "client"

def c5Msg : VolumeLocationMsg := ⟨"u", "p", [5], [6]⟩

def c5Vm : VidMap := fun _ => []

def c7Host : String := "10.0.0.1"

def c7Req : HttpRequest := ⟨some c7Host⟩

def c7BadReq : HttpRequest := ⟨some "10.0.0.9"⟩

def c10Ext : String := ".png"

def c7Body : String := "handler output"

def c10Env : ImagingEnv :=
  ⟨fun d => if d = [1] then some ⟨5, 5, 0⟩ else none,
   fun i _ _ => i, fun i _ _ => i,
   fun _ => [2], fun _ => [3], fun _ => [4]⟩

/- ===================== theorems ===================== -/

theorem copyChunksAux_flatten (fuel : Nat) :
    ∀ (content : List Nat) (toRead : Nat), content.length ≤ fuel →
      (copyChunksAux fuel content toRead).flatten = content.take toRead := by
  induction fuel with
  | zero =>
    intro content toRead hf
    have : content = [] := List.length_eq_zero.mp (Nat.le_zero.mp hf)
    simp [this, copyChunksAux]
  | succ fuel ih =>
    intro content toRead hf
    rw [copyChunksAux]
    by_cases ht : toRead = 0
    · simp [ht]
    · rw [if_neg ht]
      by_cases hc : content.length = 0
      · rw [if_pos hc]
        have : content = [] := List.length_eq_zero.mp hc
        simp [this]
      · rw [if_neg hc]
        have hb : 0 < bufferSize := by norm_num [bufferSize]
        have hr1 : 1 ≤ min bufferSize content.length := by omega
        have hrL : min bufferSize content.length ≤ content.length := min_le_right _ _
        have hdrop : (content.drop (min bufferSize content.length)).length ≤ fuel := by
          simp only [List.length_drop]; omega
        simp only [List.flatten_cons]
        rw [ih _ _ hdrop]
        by_cases hts : toRead ≤ min bufferSize content.length
        · have hs : min (min bufferSize content.length) toRead = toRead := by omega
          rw [hs]
          have h0 : toRead - toRead = 0 := by omega
          simp [h0]
        · have hs : min (min bufferSize content.length) toRead =
              min bufferSize content.length := by omega
          rw [hs, ← List.take_add]
          congr 1
          omega

theorem copyChunks_flatten (content : List Nat) (toRead : Nat) :
    (copyChunks content toRead).flatten = content.take toRead :=
  copyChunksAux_flatten content.length content toRead (Nat.le_refl _)

theorem lookupFile_filter (files : List (String × List Nat)) (n m : String) :
    lookupFile (files.filter (fun p => decide (p.fst ≠ n))) m =
      if m = n then none else lookupFile files m := by
  induction files with
  | nil => simp [lookupFile]
  | cons hd tl ih =>
    obtain ⟨a, b⟩ := hd
    by_cases han : a = n
    · subst han
      have hfil : List.filter (fun p => decide (p.fst ≠ a)) ((a, b) :: tl) =
          List.filter (fun p => decide (p.fst ≠ a)) tl := by
        simp [List.filter_cons]
      rw [hfil, ih]
      by_cases hma : m = a
      · rw [if_pos hma, if_pos hma]
      · rw [if_neg hma, if_neg hma, lookupFile, if_neg (fun he => hma he.symm)]
    · have hfil : List.filter (fun p => decide (p.fst ≠ n)) ((a, b) :: tl) =
          (a, b) :: List.filter (fun p => decide (p.fst ≠ n)) tl := by
        simp [List.filter_cons, han]
      rw [hfil, lookupFile, lookupFile, ih]
      by_cases ham : a = m
      · rw [if_pos ham, if_pos ham, if_neg (fun he : m = n => han (ham.trans he))]
      · rw [if_neg ham, if_neg ham]

theorem getFile_removeFile (fs : FileSys) (n m : String) :
    getFile (removeFile fs n) m = if m = n then none else getFile fs m := by
  unfold getFile removeFile
  exact lookupFile_filter fs.files n m

theorem getFile_setFile_self (fs : FileSys) (n : String) (c : List Nat) :
    getFile (setFile fs n c) n = some c := by
  simp [getFile, setFile, lookupFile]

theorem getFile_setFile_other (fs : FileSys) (n : String) (c : List Nat)
    (m : String) (h : n ≠ m) : getFile (setFile fs n c) m = getFile fs m := by
  unfold getFile setFile
  rw [lookupFile, if_neg h]

/-- C1 (counterexample): a CopyFile request that names an existing volume and
carries the matching compaction revision, yet the call fails — the request
selects neither the `.dat` nor the `.idx` file, so the handler opens the bare
base name and the open fails.  This refutes the claimed equivalence between
failure and revision mismatch. -/
theorem C1_counterexample :
    getVolume c1Store c1Req.volumeId = some ⟨0, [1], [2], 0⟩ ∧
    (⟨0, [1], [2], 0⟩ : Volume).compactionRevision = c1Req.compactionRevision ∧
    CopyFile c1Store c1Req = .error .openFileFailed := by decide

/-- C1 (amended): for every CopyFile request naming an existing volume and
selecting its `.dat` or `.idx` file, the call fails iff the carried compaction
revision differs from the volume revision; when they match, the stream is the
first `stop_offset` bytes of the selected file. -/
theorem C1_amended (store : Store) (req : CopyFileRequest) (v : Volume)
    (hv : getVolume store req.volumeId = some v)
    (hflag : req.isDatFile = true ∨ req.isIdxFile = true) :
    ((∃ e, CopyFile store req = .error e) ↔
        v.compactionRevision ≠ req.compactionRevision) ∧
    (v.compactionRevision = req.compactionRevision →
      ∃ chunks, CopyFile store req = .ok chunks ∧
        chunks.flatten =
          (if req.isDatFile = true then v.datContent else v.idxContent).take
            req.stopOffset) := by
  by_cases hrev : v.compactionRevision = req.compactionRevision
  · have hopen : ∃ content,
        openVolumeFile v req = some content ∧
          content = if req.isDatFile = true then v.datContent else v.idxContent := by
      cases hd : req.isDatFile
      · have hi : req.isIdxFile = true := by
          rcases hflag with h | h
          · rw [hd] at h; exact absurd h (by simp)
          · exact h
        exact ⟨v.idxContent, by simp [openVolumeFile, hd, hi]⟩
      · exact ⟨v.datContent, by simp [openVolumeFile, hd]⟩
    obtain ⟨content, hco, hcontent⟩ := hopen
    have hcf : CopyFile store req = .ok (copyChunks content req.stopOffset) := by
      unfold CopyFile
      rw [hv]
      simp only [hrev, ne_eq, not_true_eq_false, if_false, hco]
    constructor
    · constructor
      · rintro ⟨e, he⟩
        rw [hcf] at he
        exact absurd he (by simp)
      · intro h; exact absurd hrev h
    · intro _
      exact ⟨_, hcf, by rw [copyChunks_flatten, hcontent]⟩
  · have hcf : CopyFile store req = .error .compacted := by
      unfold CopyFile
      rw [hv]
      simp only [ne_eq, hrev, not_false_eq_true, if_true]
    constructor
    · exact ⟨fun _ => hrev, fun _ => ⟨.compacted, hcf⟩⟩
    · intro h; exact absurd h hrev

/-- C1 witness: concrete instance of the amended theorem (an `.idx` request
with matching revision streams the first two index bytes). -/
theorem C1_amended_witness :
    ((∃ e, CopyFile c1wStore c1wReq = .error e) ↔
        (⟨5, [1, 2, 3], [4, 5], 0⟩ : Volume).compactionRevision ≠
          c1wReq.compactionRevision) ∧
    ((⟨5, [1, 2, 3], [4, 5], 0⟩ : Volume).compactionRevision =
        c1wReq.compactionRevision →
      ∃ chunks, CopyFile c1wStore c1wReq = .ok chunks ∧
        chunks.flatten =
          (if c1wReq.isDatFile = true then ([1, 2, 3] : List Nat) else [4, 5]).take
            c1wReq.stopOffset) :=
  C1_amended c1wStore c1wReq ⟨5, [1, 2, 3], [4, 5], 0⟩ (by decide)
    (Or.inr (by decide))

/-- C3: whenever the copy phase of VolumeCopy fails (any failure inside the
client closure, including a stream cancelled mid-transfer), both destination
files are removed before the error is returned, so no partial destination
file remains. -/
theorem C3_copy_phase_cleanup (lsrv : LocalServer) (src : Store)
    (env : TransportEnv) (req : VolumeCopyRequest) (fsOut : FileSys)
    (e : CopyPhaseErr)
    (h : VolumeCopy lsrv src env req = (fsOut, .error (.copy e))) :
    ∃ dir, lsrv.freeLocationDir = some dir ∧
      getFile fsOut (volumeFileName req.collection dir req.volumeId ++ ".idx") =
        none ∧
      getFile fsOut (volumeFileName req.collection dir req.volumeId ++ ".dat") =
        none := by
  rw [VolumeCopy] at h
  split at h
  · exact absurd h (by simp)
  · next dir hdir =>
    refine ⟨dir, hdir, ?_⟩
    split at h
    · next fs1 e1 hcp =>
      simp only [Prod.mk.injEq] at h
      obtain ⟨h1, _⟩ := h
      subst h1
      constructor
      · rw [getFile_removeFile]
        by_cases hie :
            volumeFileName req.collection dir req.volumeId ++ ".idx" =
              volumeFileName req.collection dir req.volumeId ++ ".dat"
        · rw [if_pos hie]
        · rw [if_neg hie, getFile_removeFile, if_pos rfl]
      · rw [getFile_removeFile, if_pos rfl]
    · next fs1 resp hcp =>
      split at h
      · exact absurd h (by simp)
      · exact absurd h (by simp)

/-- C3 witness: mid-stream cancellation of the `.dat` transfer on a concrete
state; both destination files are gone afterwards. -/
theorem C3_witness :
    ∃ dir, c3Local.freeLocationDir = some dir ∧
      getFile (⟨[], []⟩ : FileSys)
        (volumeFileName c3Req.collection dir c3Req.volumeId ++ ".idx") = none ∧
      getFile (⟨[], []⟩ : FileSys)
        (volumeFileName c3Req.collection dir c3Req.volumeId ++ ".dat") = none :=
  C3_copy_phase_cleanup c3Local c3Src c3Env c3Req ⟨[], []⟩
    (.writeDat .receiveFailed) (by decide)

/-- C9: `writeToFile` returns nil (success) when it cannot open its
destination file, writing nothing; consequently, on a concrete state where
the `.dat` destination cannot be opened, the copy phase of VolumeCopy reports
no error and the failure surfaces only afterwards, in the `checkCopyFiles`
size comparison against the source (here: the stat of the never-created
`.dat` file fails). -/
theorem C9_writeToFile_open_error_swallowed :
    (∀ (stream : RecvStream) (fileName : String) (fs : FileSys),
        fileName ∈ fs.openFails → writeToFile stream fileName fs = (fs, none)) ∧
    (copyPhase c9Src c9Req c9Env idxName1 datName1 c9Local.fs).snd =
      .ok ⟨1, 3, 1, 0, 7⟩ ∧
    getFile (copyPhase c9Src c9Req c9Env idxName1 datName1 c9Local.fs).fst
      datName1 = none ∧
    (VolumeCopy c9Local c9Src c9Env c9Req).snd = .error (.check .statDatFailed) := by
  refine ⟨?_, by decide, by decide, by decide⟩
  intro stream fileName fs hmem
  unfold writeToFile
  rw [if_pos hmem]

/-- C9 witness: concrete open failure on which `writeToFile` reports success
and leaves the file system untouched. -/
theorem C9_witness : writeToFile c9wStream c9wName c9wFs = (c9wFs, none) :=
  C9_writeToFile_open_error_swallowed.1 c9wStream c9wName c9wFs (by decide)

/-- C2 (code bug): VolumeCopy returns success although the destination `.dat`
content differs from the source volume content.  The destination had a stale
3-byte `.dat` file and `os.OpenFile` failed on that path; `writeToFile`
swallows the open error, and `checkCopyFiles` only compares sizes, which
match.  The spec scenario (replica repair makes the `.dat` content hash equal
the source) is the clear intent; the `return nil` on the open error in
`writeToFile` is the slip. -/
theorem C2_success_with_mismatched_dat :
    (VolumeCopy c2Local c2Src c2Env c2Req).snd = .ok 4000000000 ∧
    getFile (VolumeCopy c2Local c2Src c2Env c2Req).fst datName1 =
      some [7, 7, 7] ∧
    (getVolume c2Src c2Req.volumeId).map Volume.datContent = some [1, 2, 3] ∧
    ([7, 7, 7] : List Nat) ≠ [1, 2, 3] := by decide

/-- C4 (counterexample): the heartbeat loop has no exponential back-off.
With pulse = 4 s, the sleep after a failed join is 1000 ms, and after a
second consecutive failure it is 1000 ms again — the retry delay does not
grow, contradicting the claimed exponential back-off (the connected-path
sleep is also never below pulse, it is pulse plus a nonnegative jitter). -/
theorem C4_counterexample :
    heartbeatTrace 4 [(false, 0), (false, 0)] = [1000, 1000] ∧
    ¬((1000 : ℚ) < 1000) := by
  constructor
  · norm_num [heartbeatTrace, heartbeatSleepMs]
  · norm_num

/-- C4 (amended): while connected, successive Join pulses are separated by
`pulse * (1 + jitter)` seconds with jitter in `[0, 1)` — between pulse and
2·pulse, never less; after a failed join the loop retries against the same
master at the fixed interval `0.25 * pulse` (no exponential back-off). -/
theorem C4_amended (p : Nat) (jitter : ℚ) (hp : 1 ≤ p) (h0 : 0 ≤ jitter)
    (h1 : jitter < 1) :
    ((p : ℚ) * 1000 ≤ heartbeatSleepMs p true jitter ∧
      heartbeatSleepMs p true jitter < (p : ℚ) * 2000) ∧
    heartbeatSleepMs p false jitter = (p : ℚ) * 250 := by
  have hq : (1 : ℚ) ≤ (p : ℚ) := by exact_mod_cast hp
  unfold heartbeatSleepMs
  norm_num
  refine ⟨⟨?_, ?_⟩, by ring⟩
  · nlinarith
  · nlinarith

/-- C4 witness: the amended bounds at pulse 4 s and jitter 1/2. -/
theorem C4_amended_witness :
    (((4 : Nat) : ℚ) * 1000 ≤ heartbeatSleepMs 4 true (1 / 2) ∧
      heartbeatSleepMs 4 true (1 / 2) < ((4 : Nat) : ℚ) * 2000) ∧
    heartbeatSleepMs 4 false (1 / 2) = ((4 : Nat) : ℚ) * 250 :=
  C4_amended 4 (1 / 2) (by norm_num) (by norm_num) (by norm_num)

theorem addLocation_mem (m : VidMap) (vid : Nat) (loc : Location) :
    loc ∈ addLocation m vid loc vid := by
  unfold addLocation
  rw [if_pos rfl]
  by_cases h : loc ∈ m vid
  · rw [if_pos h]; exact h
  · rw [if_neg h]; exact List.mem_cons_self _ _

theorem addLocation_preserves (m : VidMap) (w vid : Nat) (loc : Location)
    (h : loc ∈ m vid) : loc ∈ addLocation m w loc vid := by
  unfold addLocation
  by_cases hv : vid = w
  · subst hv
    rw [if_pos rfl]
    by_cases hm : loc ∈ m vid
    · rw [if_pos hm]; exact hm
    · rw [if_neg hm]; exact List.mem_cons_self _ _
  · rw [if_neg hv]; exact h

theorem foldl_addLocation_preserves (loc : Location) :
    ∀ (vids : List Nat) (m : VidMap) (vid : Nat), loc ∈ m vid →
      loc ∈ (vids.foldl (fun m v => addLocation m v loc) m) vid := by
  intro vids
  induction vids with
  | nil => intro m vid h; exact h
  | cons w ws ih =>
    intro m vid h
    rw [List.foldl_cons]
    exact ih _ _ (addLocation_preserves m w vid loc h)

theorem foldl_addLocation_mem (loc : Location) :
    ∀ (vids : List Nat) (m : VidMap) (vid : Nat), vid ∈ vids →
      loc ∈ (vids.foldl (fun m v => addLocation m v loc) m) vid := by
  intro vids
  induction vids with
  | nil => intro m vid h; cases h
  | cons w ws ih =>
    intro m vid h
    rw [List.foldl_cons]
    rcases List.mem_cons.mp h with he | hm
    · subst he
      exact foldl_addLocation_preserves loc ws _ _ (addLocation_mem m vid loc)
    · exact ih _ _ hm

theorem deleteLocation_not_mem_self (m : VidMap) (vid : Nat) (loc : Location) :
    loc ∉ deleteLocation m vid loc vid := by
  unfold deleteLocation
  rw [if_pos rfl]
  intro hmem
  have h2 := (List.mem_filter.mp hmem).2
  simp at h2

theorem deleteLocation_preserves_not (m : VidMap) (w vid : Nat)
    (loc : Location) (h : loc ∉ m vid) : loc ∉ deleteLocation m w loc vid := by
  unfold deleteLocation
  by_cases hv : vid = w
  · subst hv
    rw [if_pos rfl]
    intro hmem
    exact h (List.mem_filter.mp hmem).1
  · rw [if_neg hv]; exact h

theorem foldl_deleteLocation_preserves_not (loc : Location) :
    ∀ (dels : List Nat) (m : VidMap) (vid : Nat), loc ∉ m vid →
      loc ∉ (dels.foldl (fun m v => deleteLocation m v loc) m) vid := by
  intro dels
  induction dels with
  | nil => intro m vid h; exact h
  | cons w ws ih =>
    intro m vid h
    rw [List.foldl_cons]
    exact ih _ _ (deleteLocation_preserves_not m w vid loc h)

theorem foldl_deleteLocation_not_mem (loc : Location) :
    ∀ (dels : List Nat) (m : VidMap) (vid : Nat), vid ∈ dels →
      loc ∉ (dels.foldl (fun m v => deleteLocation m v loc) m) vid := by
  intro dels
  induction dels with
  | nil => intro m vid h; cases h
  | cons w ws ih =>
    intro m vid h
    rw [List.foldl_cons]
    rcases List.mem_cons.mp h with he | hm
    · subst he
      exact foldl_deleteLocation_preserves_not loc ws _ _
        (deleteLocation_not_mem_self m vid loc)
    · exact ih _ _ hm

theorem foldl_deleteLocation_preserves_mem (loc : Location) :
    ∀ (dels : List Nat) (m : VidMap) (vid : Nat), vid ∉ dels →
      loc ∈ m vid → loc ∈ (dels.foldl (fun m v => deleteLocation m v loc) m) vid := by
  intro dels
  induction dels with
  | nil => intro m vid _ h; exact h
  | cons w ws ih =>
    intro m vid hnd h
    rw [List.foldl_cons]
    have hvw : vid ≠ w := fun he => hnd (he ▸ List.mem_cons_self _ _)
    refine ih _ _ (fun hin => hnd (List.mem_cons_of_mem _ hin)) ?_
    unfold deleteLocation
    rw [if_neg hvw]
    exact h

/-- C5: on a `KeepConnected` session, the first (and only) message sent is a
`ClientListenRequest` carrying the client name; the volume map after the
session is the in-order fold of the received `VolumeLocation` messages, and
each message adds its `(url, public_url)` location under every id of
`new_vids` and removes that location under every id of `deleted_vids` (an id
listed in both ends up removed, since the deletes run after the adds). -/
theorem C5_keepconnected_stream (name : String)
    (msgs : List VolumeLocationMsg) (vm : VidMap) :
    (keepConnectedSession name msgs vm).fst.head? =
      some (.clientListen name) ∧
    (keepConnectedSession name msgs vm).snd = msgs.foldl applyVolumeLocation vm ∧
    (∀ (m : VidMap) (msg : VolumeLocationMsg) (vid : Nat),
      (vid ∈ msg.newVids → vid ∉ msg.deletedVids →
        (⟨msg.url, msg.publicUrl⟩ : Location) ∈ applyVolumeLocation m msg vid) ∧
      (vid ∈ msg.deletedVids →
        (⟨msg.url, msg.publicUrl⟩ : Location) ∉ applyVolumeLocation m msg vid)) := by
  refine ⟨rfl, rfl, ?_⟩
  intro m msg vid
  constructor
  · intro hnew hdel
    unfold applyVolumeLocation
    exact foldl_deleteLocation_preserves_mem _ _ _ _ hdel
      (foldl_addLocation_mem _ _ _ _ hnew)
  · intro hdel
    unfold applyVolumeLocation
    exact foldl_deleteLocation_not_mem _ _ _ _ hdel

/-- C5 witness: a concrete message adds volume 5 and removes volume 6. -/
theorem C5_witness :
    (⟨c5Msg.url, c5Msg.publicUrl⟩ : Location) ∈
      applyVolumeLocation c5Vm c5Msg 5 ∧
    (⟨c5Msg.url, c5Msg.publicUrl⟩ : Location) ∉
      applyVolumeLocation c5Vm c5Msg 6 :=
  ⟨((C5_keepconnected_stream c5Name [] c5Vm).2.2 c5Vm c5Msg 5).1
      (by decide) (by decide),
    ((C5_keepconnected_stream c5Name [] c5Vm).2.2 c5Vm c5Msg 6).2 (by decide)⟩

/-- C6: `runCompact` returns false when `-volumeId` is -1; otherwise it loads
the volume with the in-memory needle map and runs `Compact` with the
preallocation (MB shifted to bytes) when `-method` is 0 and `Compact2` when
`-method` is 1; a load or compact failure ends the process with a non-zero
exit, and otherwise the command returns success. -/
theorem C6_runCompact (volumeId method preallocateMB : Int)
    (env : CompactEnv) :
    (volumeId = -1 →
      runCompact volumeId method preallocateMB env = ⟨none, none, .returnedFalse⟩) ∧
    (volumeId ≠ -1 →
      (runCompact volumeId method preallocateMB env).loadedWith =
        some .inMemory) ∧
    (volumeId ≠ -1 → env.loadErr = true →
      (runCompact volumeId method preallocateMB env).result = .fatalLoad) ∧
    (volumeId ≠ -1 → env.loadErr = false → method = 0 →
      (runCompact volumeId method preallocateMB env).called =
          some (.compact (preallocateMB * 1048576)) ∧
        (runCompact volumeId method preallocateMB env).result =
          (if env.compactErr then CompactResult.fatalCompact
           else CompactResult.returnedTrue)) ∧
    (volumeId ≠ -1 → env.loadErr = false → method = 1 →
      (runCompact volumeId method preallocateMB env).called = some .compact2 ∧
        (runCompact volumeId method preallocateMB env).result =
          (if env.compact2Err then CompactResult.fatalCompact
           else CompactResult.returnedTrue)) := by
  unfold runCompact
  refine ⟨fun h => by rw [if_pos h], fun h => ?_, fun h hl => ?_,
    fun h hl hm => ?_, fun h hl hm => ?_⟩
  · rw [if_neg h]
    by_cases hl : env.loadErr
    · simp [hl]
    · by_cases hm : method = 0
      · by_cases hc : env.compactErr <;> simp [hl, hm, hc]
      · by_cases hc : env.compact2Err <;> simp [hl, hm, hc]
  · rw [if_neg h]
    simp [hl]
  · rw [if_neg h]
    by_cases hc : env.compactErr <;> simp [hl, hm, hc]
  · have hm1 : method ≠ 0 := by omega
    rw [if_neg h]
    by_cases hc : env.compact2Err <;> simp [hl, hm1, hc]

/-- C6 witness: a successful method-0 run at volume 7 with 2 MB
preallocation. -/
theorem C6_witness :
    ((7 : Int) = -1 →
      runCompact 7 0 2 ⟨false, false, false⟩ = ⟨none, none, .returnedFalse⟩) ∧
    ((7 : Int) ≠ -1 →
      (runCompact 7 0 2 ⟨false, false, false⟩).loadedWith = some .inMemory) ∧
    ((7 : Int) ≠ -1 → (⟨false, false, false⟩ : CompactEnv).loadErr = true →
      (runCompact 7 0 2 ⟨false, false, false⟩).result = .fatalLoad) ∧
    ((7 : Int) ≠ -1 → (⟨false, false, false⟩ : CompactEnv).loadErr = false →
      (0 : Int) = 0 →
      (runCompact 7 0 2 ⟨false, false, false⟩).called =
          some (.compact ((2 : Int) * 1048576)) ∧
        (runCompact 7 0 2 ⟨false, false, false⟩).result =
          (if (⟨false, false, false⟩ : CompactEnv).compactErr then
            CompactResult.fatalCompact
           else CompactResult.returnedTrue)) ∧
    ((7 : Int) ≠ -1 → (⟨false, false, false⟩ : CompactEnv).loadErr = false →
      (0 : Int) = 1 →
      (runCompact 7 0 2 ⟨false, false, false⟩).called = some .compact2 ∧
        (runCompact 7 0 2 ⟨false, false, false⟩).result =
          (if (⟨false, false, false⟩ : CompactEnv).compact2Err then
            CompactResult.fatalCompact
           else CompactResult.returnedTrue)) :=
  C6_runCompact 7 0 2 ⟨false, false, false⟩

/-- C7: with an empty whitelist every request reaches the wrapped handler;
with a non-empty whitelist the handler runs iff the parsed remote host equals
a whitelisted IP, and for every other request the error response is written,
identically for any two handlers — the response of a non-whitelisted caller
does not depend on the wrapped handler. -/
theorem C7_secure_whitelist (whiteList : List String)
    (f g : HttpRequest → String) (r : HttpRequest) :
    (whiteList = [] → secure whiteList f r = .fromHandler (f r)) ∧
    (whiteList ≠ [] →
      ((∃ b, secure whiteList f r = .fromHandler b) ↔
        (∃ h, r.remoteHost = some h ∧ h ∈ whiteList))) ∧
    (whiteList ≠ [] → ¬(∃ h, r.remoteHost = some h ∧ h ∈ whiteList) →
      secure whiteList f r = secure whiteList g r ∧
        ∃ msg, secure whiteList f r = .errorJson msg) := by
  obtain ⟨rh⟩ := r
  refine ⟨fun h => ?_, fun hne => ?_, fun hne hno => ?_⟩
  · subst h
    simp [secure]
  · have hemp : whiteList.isEmpty = false := by simp [hne]
    cases rh with
    | none => simp [secure, hemp]
    | some host =>
      by_cases hmem : host ∈ whiteList
      · simp [secure, hemp, hmem]
      · simp [secure, hemp, hmem]
  · have hemp : whiteList.isEmpty = false := by simp [hne]
    cases rh with
    | none => simp [secure, hemp]
    | some host =>
      have hmem : host ∉ whiteList := fun hm => hno ⟨host, rfl, hm⟩
      simp [secure, hemp, hmem]

/-- C7 witness: with whitelist `[10.0.0.1]`, the request from 10.0.0.1
reaches the handler and the request from 10.0.0.9 does not, with a response
independent of the handler. -/
theorem C7_witness :
    (([c7Host] : List String) ≠ [] →
      ((∃ b, secure [c7Host] (fun _ => c7Body) c7BadReq = .fromHandler b) ↔
        (∃ h, c7BadReq.remoteHost = some h ∧ h ∈ [c7Host]))) ∧
    (([c7Host] : List String) ≠ [] →
      ¬(∃ h, c7BadReq.remoteHost = some h ∧ h ∈ [c7Host]) →
      secure [c7Host] (fun _ => c7Body) c7BadReq =
          secure [c7Host] (fun _ => c7Host) c7BadReq ∧
        ∃ msg, secure [c7Host] (fun _ => c7Body) c7BadReq = .errorJson msg) :=
  ⟨(C7_secure_whitelist [c7Host] (fun _ => c7Body) (fun _ => c7Host)
      c7BadReq).2.1,
    (C7_secure_whitelist [c7Host] (fun _ => c7Body) (fun _ => c7Host)
      c7BadReq).2.2⟩

/-- C10: `Resized` returns the input bytes unchanged whenever both requested
dimensions are 0, whenever the data does not decode, or whenever the decoded
dimensions do not exceed any nonzero requested dimension; the resize branch
runs only when the source strictly exceeds a nonzero requested width or
height. -/
theorem C10_resized_identity (env : ImagingEnv) (ext : String)
    (data : List Nat) (width height : Int) :
    (width = 0 ∧ height = 0 →
      Resized env ext data width height = (data, 0, 0)) ∧
    (env.decode data = none →
      Resized env ext data width height = (data, 0, 0)) ∧
    (∀ img, env.decode data = some img →
      ¬((img.width > width ∧ width ≠ 0) ∨ (img.height > height ∧ height ≠ 0)) →
      (Resized env ext data width height).fst = data) ∧
    ((ResizedT env ext data width height).snd = true →
      ∃ img, env.decode data = some img ∧
        ((img.width > width ∧ width ≠ 0) ∨
          (img.height > height ∧ height ≠ 0))) := by
  refine ⟨fun h => ?_, fun h => ?_, fun img hi hno => ?_, fun hran => ?_⟩
  · unfold Resized ResizedT
    rw [if_pos h]
  · unfold Resized ResizedT
    by_cases h0 : width = 0 ∧ height = 0
    · rw [if_pos h0]
    · rw [if_neg h0, h]
  · unfold Resized ResizedT
    by_cases h0 : width = 0 ∧ height = 0
    · rw [if_pos h0]
    · rw [if_neg h0, hi]
      simp only [if_neg hno]
  · unfold ResizedT at hran
    by_cases h0 : width = 0 ∧ height = 0
    · rw [if_pos h0] at hran; simp at hran
    · rw [if_neg h0] at hran
      cases hd : env.decode data with
      | none => rw [hd] at hran; simp at hran
      | some img =>
        rw [hd] at hran
        by_cases hbig : (img.width > width ∧ width ≠ 0) ∨
            (img.height > height ∧ height ≠ 0)
        · exact ⟨img, rfl, hbig⟩
        · simp [hbig] at hran

theorem countChar_append (a b : List Char) (c : Char) :
    countChar (a ++ b) c = countChar a c + countChar b c := by
  induction a with
  | nil => simp [countChar]
  | cons x xs ih =>
    simp only [List.cons_append, countChar]
    have ih2 : countChar (List.append xs b) c = countChar xs c + countChar b c := ih
    rw [ih2, Nat.add_assoc]

theorem countChar_eq_zero : ∀ (s : List Char) (c : Char), c ∉ s →
    countChar s c = 0
  | [], _, _ => rfl
  | x :: xs, c, h => by
    have hx : ¬x = c := fun he => h (by rw [he]; exact List.mem_cons_self _ _)
    rw [countChar, if_neg hx,
      countChar_eq_zero xs c (fun hm => h (List.mem_cons_of_mem _ hm))]

theorem goSplit_cons_sep (s : List Char) (sep : Char) :
    goSplit (sep :: s) sep = [] :: goSplit s sep := by
  simp [goSplit]

theorem goSplit_of_not_mem : ∀ (s : List Char) (sep : Char), sep ∉ s →
    goSplit s sep = [s]
  | [], _, _ => rfl
  | x :: xs, sep, h => by
    have hx : ¬x = sep := fun he => h (by rw [he]; exact List.mem_cons_self _ _)
    have ih := goSplit_of_not_mem xs sep (fun hm => h (List.mem_cons_of_mem _ hm))
    simp only [goSplit, if_neg hx, ih]

theorem goSplit_append : ∀ (a b : List Char) (sep : Char), sep ∉ a →
    goSplit (a ++ sep :: b) sep = a :: goSplit b sep
  | [], b, sep, _ => by simp [goSplit]
  | x :: a, b, sep, h => by
    have hx : ¬x = sep := fun he => h (by rw [he]; exact List.mem_cons_self _ _)
    have ih : goSplit (List.append a (sep :: b)) sep = a :: goSplit b sep :=
      goSplit_append a b sep (fun hm => h (List.mem_cons_of_mem _ hm))
    simp only [List.cons_append, goSplit, if_neg hx, ih]

theorem goLastIndex_of_not_mem : ∀ (s : List Char) (c : Char), c ∉ s →
    goLastIndex s c = -1
  | [], _, _ => rfl
  | x :: xs, c, h => by
    have hx : ¬x = c := fun he => h (by rw [he]; exact List.mem_cons_self _ _)
    have ih := goLastIndex_of_not_mem xs c (fun hm => h (List.mem_cons_of_mem _ hm))
    simp only [goLastIndex, ih]
    norm_num [hx]

theorem goLastIndex_append : ∀ (a b : List Char) (c : Char), c ∉ b →
    goLastIndex (a ++ c :: b) c = (a.length : Int)
  | [], b, c, h => by
    have hb := goLastIndex_of_not_mem b c h
    simp only [List.nil_append, goLastIndex, hb]
    norm_num
  | x :: a, b, c, h => by
    have ih : goLastIndex (List.append a (c :: b)) c = (a.length : Int) :=
      goLastIndex_append a b c h
    simp only [List.cons_append, goLastIndex, ih]
    rw [if_pos (show (a.length : Int) ≥ 0 from Int.natCast_nonneg _)]
    simp only [List.length_cons]
    push_cast
    ring

theorem goLastIndex_cons_self_of_not_mem (c : Char) (s : List Char)
    (h : c ∉ s) : goLastIndex (c :: s) c = 0 := by
  have hs := goLastIndex_of_not_mem s c h
  simp only [goLastIndex, hs]
  norm_num

theorem goSliceFrom_zero (s : List Char) : goSliceFrom s 0 = some s := by
  have hg : (0 : Int) ≤ 0 ∧ (0 : Int) ≤ (s.length : Int) ∧
      (s.length : Int) ≤ (s.length : Int) :=
    ⟨le_refl _, Int.natCast_nonneg _, le_refl _⟩
  rw [goSliceFrom, goSlice, if_pos hg]
  simp

theorem goSliceFrom_cons_one (x : Char) (s : List Char) :
    goSliceFrom (x :: s) 1 = some s := by
  have hg : (0 : Int) ≤ 1 ∧ (1 : Int) ≤ (((x :: s).length : Nat) : Int) ∧
      (((x :: s).length : Nat) : Int) ≤ (((x :: s).length : Nat) : Int) := by
    simp only [List.length_cons]
    omega
  rw [goSliceFrom, goSlice, if_pos hg]
  simp

theorem goSlice_prefix_inner (x : Char) (p rest : List Char) :
    goSlice (x :: (p ++ rest)) 1 ((p.length : Int) + 1) = some p := by
  have hg : (0 : Int) ≤ 1 ∧ (1 : Int) ≤ (p.length : Int) + 1 ∧
      (p.length : Int) + 1 ≤ (((x :: (p ++ rest)).length : Nat) : Int) := by
    simp only [List.length_cons, List.length_append]
    omega
  rw [goSlice, if_pos hg]
  have h1 : ((p.length : Int) + 1).toNat = p.length + 1 := by simp
  have h2 : (1 : Int).toNat = 1 := rfl
  rw [h1, h2]
  have h3 : p.length + 1 - 1 = p.length := by omega
  rw [h3]
  simp only [List.drop_succ_cons, List.drop_zero, List.take_left]

theorem goSliceFrom_append (pre suf : List Char) :
    goSliceFrom (pre ++ suf) ((pre.length : Int)) = some suf := by
  have hg : (0 : Int) ≤ (pre.length : Int) ∧
      (pre.length : Int) ≤ (((pre ++ suf).length : Nat) : Int) ∧
      (((pre ++ suf).length : Nat) : Int) ≤ (((pre ++ suf).length : Nat) : Int) := by
    simp only [List.length_append]
    omega
  rw [goSliceFrom, goSlice, if_pos hg]
  have h1 : ((pre.length : Int)).toNat = pre.length := Int.toNat_natCast _
  have h2 : ((((pre ++ suf).length : Nat) : Int)).toNat = (pre ++ suf).length :=
    Int.toNat_natCast _
  rw [h1, h2]
  have h3 : (pre ++ suf).length - pre.length = suf.length := by
    simp [List.length_append]
  rw [h3, List.drop_left, List.take_length]

theorem goSlice_middle (pre mid suf : List Char) :
    goSlice (pre ++ mid ++ suf) ((pre.length : Int))
      ((pre.length : Int) + (mid.length : Int)) = some mid := by
  have hg : (0 : Int) ≤ (pre.length : Int) ∧
      (pre.length : Int) ≤ (pre.length : Int) + (mid.length : Int) ∧
      (pre.length : Int) + (mid.length : Int) ≤
        (((pre ++ mid ++ suf).length : Nat) : Int) := by
    simp only [List.length_append]
    omega
  rw [goSlice, if_pos hg]
  have h1 : ((pre.length : Int)).toNat = pre.length := Int.toNat_natCast _
  have h2 : ((pre.length : Int) + (mid.length : Int)).toNat - pre.length =
      mid.length := by
    rw [← Nat.cast_add, Int.toNat_natCast]
    omega
  rw [h1, h2]
  rw [List.append_assoc, List.drop_left, List.take_left]

theorem parseURLPath_two_slash (vid fid : List Char) (hv : '/' ∉ vid)
    (hf : '/' ∉ fid) :
    parseURLPath ('/' :: (vid ++ '/' :: fid)) =
      some ⟨vid,
        if 0 < goLastIndex fid '.' then fid.take (goLastIndex fid '.').toNat
        else fid,
        [],
        if 0 < goLastIndex fid '.' then fid.drop (goLastIndex fid '.').toNat
        else [],
        false⟩ := by
  have hcount : countChar ('/' :: (vid ++ '/' :: fid)) '/' = 2 := by
    rw [countChar, countChar_append, countChar, countChar_eq_zero vid _ hv,
      countChar_eq_zero fid _ hf]
    simp
  have hsplit : goSplit ('/' :: (vid ++ '/' :: fid)) '/' = [[], vid, fid] := by
    rw [goSplit_cons_sep, goSplit_append vid fid _ hv, goSplit_of_not_mem fid _ hf]
  have hg1 : (([[], vid, fid] : List (List Char)).getD 1 []) = vid := rfl
  have hg2 : (([[], vid, fid] : List (List Char)).getD 2 []) = fid := rfl
  simp only [parseURLPath, hcount, hsplit, hg1, hg2]
  norm_num
  split_ifs <;> rfl

theorem parseURLPath_single_plain (seg : List Char) (hs : '/' ∉ seg)
    (hc : ',' ∉ seg) :
    parseURLPath ('/' :: seg) = some ⟨seg, [], [], [], true⟩ := by
  have hcount : countChar ('/' :: seg) '/' = 1 := by
    rw [countChar, countChar_eq_zero seg _ hs]
    simp
  have hsep : goLastIndex ('/' :: seg) '/' = 0 :=
    goLastIndex_cons_self_of_not_mem _ _ hs
  have htail : goSliceFrom ('/' :: seg) 0 = some ('/' :: seg) :=
    goSliceFrom_zero _
  have hcomma : goLastIndex ('/' :: seg) ',' = -1 := by
    refine goLastIndex_of_not_mem _ _ ?_
    intro hm
    rcases List.mem_cons.mp hm with he | hm2
    · exact absurd he (by decide)
    · exact hc hm2
  simp only [parseURLPath, hcount, hsep, htail, hcomma]
  norm_num [goSliceFrom_cons_one]

theorem parseURLPath_single_comma_no_dot (p q : List Char) (hp : '/' ∉ p)
    (hq : '/' ∉ q) (hcq : ',' ∉ q) (hdp : '.' ∉ p) (hdq : '.' ∉ q) :
    parseURLPath ('/' :: (p ++ ',' :: q)) = some ⟨p, q, [], [], false⟩ := by
  have hslash : '/' ∉ p ++ ',' :: q := by
    intro hm
    rcases List.mem_append.mp hm with h1 | h2
    · exact hp h1
    · rcases List.mem_cons.mp h2 with he | h3
      · exact absurd he (by decide)
      · exact hq h3
  have hcount : countChar ('/' :: (p ++ ',' :: q)) '/' = 1 := by
    rw [countChar, countChar_eq_zero _ _ hslash]
    simp
  have hsep : goLastIndex ('/' :: (p ++ ',' :: q)) '/' = 0 :=
    goLastIndex_cons_self_of_not_mem _ _ hslash
  have htail : goSliceFrom ('/' :: (p ++ ',' :: q)) 0 =
      some ('/' :: (p ++ ',' :: q)) := goSliceFrom_zero _
  have hcomma : goLastIndex ('/' :: (p ++ ',' :: q)) ',' =
      (p.length : Int) + 1 := by
    have heq : ('/' :: (p ++ ',' :: q)) = ('/' :: p) ++ ',' :: q := by simp
    rw [heq, goLastIndex_append _ _ _ hcq]
    simp only [List.length_cons]
    push_cast
    ring
  have hdot : goLastIndex ('/' :: (p ++ ',' :: q)) '.' = -1 := by
    refine goLastIndex_of_not_mem _ _ ?_
    intro hm
    rcases List.mem_cons.mp hm with he | h2
    · exact absurd he (by decide)
    · rcases List.mem_append.mp h2 with h3 | h4
      · exact hdp h3
      · rcases List.mem_cons.mp h4 with he2 | h5
        · exact absurd he2 (by decide)
        · exact hdq h5
  have hvid : goSlice ('/' :: (p ++ ',' :: q)) 1 ((p.length : Int) + 1) =
      some p := goSlice_prefix_inner '/' p (',' :: q)
  have hfid : goSliceFrom ('/' :: (p ++ ',' :: q)) ((p.length : Int) + 1 + 1) =
      some q := by
    have heq : ('/' :: (p ++ ',' :: q)) = (('/' :: p) ++ [',']) ++ q := by simp
    have hlen : (((('/' :: p) ++ [',']).length : Nat) : Int) =
        (p.length : Int) + 1 + 1 := by
      simp only [List.length_append, List.length_cons, List.length_nil]
      push_cast
      ring
    rw [heq, ← hlen, goSliceFrom_append]
  have hpos : ¬((p.length : Int) + 1 ≤ 0) := by omega
  have hdneg : ¬((0 : Int) < -1) := by omega
  simp only [parseURLPath, hcount, hsep, htail, hcomma, hdot, zero_add, hvid,
    hfid, if_neg hpos, if_neg hdneg]
  norm_num

theorem parseURLPath_single_comma_dot (p q1 q2 : List Char) (hp : '/' ∉ p)
    (hq1 : '/' ∉ q1) (hq2 : '/' ∉ q2) (hcq1 : ',' ∉ q1) (hcq2 : ',' ∉ q2)
    (hdq2 : '.' ∉ q2) :
    parseURLPath ('/' :: (p ++ ',' :: (q1 ++ '.' :: q2))) =
      some ⟨p, q1, [], '.' :: q2, false⟩ := by
  have hslash : '/' ∉ p ++ ',' :: (q1 ++ '.' :: q2) := by
    intro hm
    rcases List.mem_append.mp hm with h1 | h2
    · exact hp h1
    · rcases List.mem_cons.mp h2 with he | h3
      · exact absurd he (by decide)
      · rcases List.mem_append.mp h3 with h4 | h5
        · exact hq1 h4
        · rcases List.mem_cons.mp h5 with he2 | h6
          · exact absurd he2 (by decide)
          · exact hq2 h6
  have hcount : countChar ('/' :: (p ++ ',' :: (q1 ++ '.' :: q2))) '/' = 1 := by
    rw [countChar, countChar_eq_zero _ _ hslash]
    simp
  have hsep : goLastIndex ('/' :: (p ++ ',' :: (q1 ++ '.' :: q2))) '/' = 0 :=
    goLastIndex_cons_self_of_not_mem _ _ hslash
  have htail : goSliceFrom ('/' :: (p ++ ',' :: (q1 ++ '.' :: q2))) 0 =
      some ('/' :: (p ++ ',' :: (q1 ++ '.' :: q2))) := goSliceFrom_zero _
  have hcomma : goLastIndex ('/' :: (p ++ ',' :: (q1 ++ '.' :: q2))) ',' =
      (p.length : Int) + 1 := by
    have heq : ('/' :: (p ++ ',' :: (q1 ++ '.' :: q2))) =
        ('/' :: p) ++ ',' :: (q1 ++ '.' :: q2) := by simp
    have hnc : ',' ∉ q1 ++ '.' :: q2 := by
      intro hm
      rcases List.mem_append.mp hm with h1 | h2
      · exact hcq1 h1
      · rcases List.mem_cons.mp h2 with he | h3
        · exact absurd he (by decide)
        · exact hcq2 h3
    rw [heq, goLastIndex_append _ _ _ hnc]
    simp only [List.length_cons]
    push_cast
    ring
  have hdot : goLastIndex ('/' :: (p ++ ',' :: (q1 ++ '.' :: q2))) '.' =
      (p.length : Int) + (q1.length : Int) + 2 := by
    have heq : ('/' :: (p ++ ',' :: (q1 ++ '.' :: q2))) =
        ('/' :: (p ++ ',' :: q1)) ++ '.' :: q2 := by simp
    rw [heq, goLastIndex_append _ _ _ hdq2]
    simp only [List.length_cons, List.length_append]
    push_cast
    ring
  have hvid : goSlice ('/' :: (p ++ ',' :: (q1 ++ '.' :: q2))) 1
      ((p.length : Int) + 1) = some p :=
    goSlice_prefix_inner '/' p (',' :: (q1 ++ '.' :: q2))
  have hfid0 : goSliceFrom ('/' :: (p ++ ',' :: (q1 ++ '.' :: q2)))
      ((p.length : Int) + 1 + 1) = some (q1 ++ '.' :: q2) := by
    have heq : ('/' :: (p ++ ',' :: (q1 ++ '.' :: q2))) =
        (('/' :: p) ++ [',']) ++ (q1 ++ '.' :: q2) := by simp
    have hlen : (((('/' :: p) ++ [',']).length : Nat) : Int) =
        (p.length : Int) + 1 + 1 := by
      simp only [List.length_append, List.length_cons, List.length_nil]
      push_cast
      ring
    rw [heq, ← hlen, goSliceFrom_append]
  have hfid1 : goSlice ('/' :: (p ++ ',' :: (q1 ++ '.' :: q2)))
      ((p.length : Int) + 1 + 1) ((p.length : Int) + (q1.length : Int) + 2) =
      some q1 := by
    have heq : ('/' :: (p ++ ',' :: (q1 ++ '.' :: q2))) =
        (('/' :: p) ++ [',']) ++ q1 ++ '.' :: q2 := by simp
    have hlen : (((('/' :: p) ++ [',']).length : Nat) : Int) =
        (p.length : Int) + 1 + 1 := by
      simp only [List.length_append, List.length_cons, List.length_nil]
      push_cast
      ring
    have hsum : (p.length : Int) + (q1.length : Int) + 2 =
        (((('/' :: p) ++ [',']).length : Nat) : Int) + (q1.length : Int) := by
      rw [hlen]
      ring
    rw [heq, ← hlen, hsum, goSlice_middle]
  have hext : goSliceFrom ('/' :: (p ++ ',' :: (q1 ++ '.' :: q2)))
      ((p.length : Int) + (q1.length : Int) + 2) = some ('.' :: q2) := by
    have heq : ('/' :: (p ++ ',' :: (q1 ++ '.' :: q2))) =
        ('/' :: (p ++ ',' :: q1)) ++ '.' :: q2 := by simp
    have hlen : ((('/' :: (p ++ ',' :: q1)).length : Nat) : Int) =
        (p.length : Int) + (q1.length : Int) + 2 := by
      simp only [List.length_cons, List.length_append]
      push_cast
      ring
    rw [heq, ← hlen, goSliceFrom_append]
  have hpos : ¬((p.length : Int) + 1 ≤ 0) := by omega
  have hdpos : (0 : Int) < (p.length : Int) + (q1.length : Int) + 2 := by omega
  simp only [parseURLPath, hcount, hsep, htail, hcomma, hdot, zero_add, hvid,
    hfid0, hfid1, hext, if_neg hpos, if_pos hdpos]
  norm_num

theorem parseURLPath_single_dot_before_comma (a b c : List Char)
    (ha : '/' ∉ a) (hb : '/' ∉ b) (hc : '/' ∉ c) (hdb : '.' ∉ b)
    (hdc : '.' ∉ c) (hcc : ',' ∉ c) :
    parseURLPath ('/' :: (a ++ '.' :: (b ++ ',' :: c))) = none := by
  have hslash : '/' ∉ a ++ '.' :: (b ++ ',' :: c) := by
    intro hm
    rcases List.mem_append.mp hm with h1 | h2
    · exact ha h1
    · rcases List.mem_cons.mp h2 with he | h3
      · exact absurd he (by decide)
      · rcases List.mem_append.mp h3 with h4 | h5
        · exact hb h4
        · rcases List.mem_cons.mp h5 with he2 | h6
          · exact absurd he2 (by decide)
          · exact hc h6
  have hcount : countChar ('/' :: (a ++ '.' :: (b ++ ',' :: c))) '/' = 1 := by
    rw [countChar, countChar_eq_zero _ _ hslash]
    simp
  have hsep : goLastIndex ('/' :: (a ++ '.' :: (b ++ ',' :: c))) '/' = 0 :=
    goLastIndex_cons_self_of_not_mem _ _ hslash
  have htail : goSliceFrom ('/' :: (a ++ '.' :: (b ++ ',' :: c))) 0 =
      some ('/' :: (a ++ '.' :: (b ++ ',' :: c))) := goSliceFrom_zero _
  have hcomma : goLastIndex ('/' :: (a ++ '.' :: (b ++ ',' :: c))) ',' =
      (a.length : Int) + (b.length : Int) + 2 := by
    have heq : ('/' :: (a ++ '.' :: (b ++ ',' :: c))) =
        ('/' :: (a ++ '.' :: b)) ++ ',' :: c := by simp
    rw [heq, goLastIndex_append _ _ _ hcc]
    simp only [List.length_cons, List.length_append]
    push_cast
    ring
  have hdot : goLastIndex ('/' :: (a ++ '.' :: (b ++ ',' :: c))) '.' =
      (a.length : Int) + 1 := by
    have heq : ('/' :: (a ++ '.' :: (b ++ ',' :: c))) =
        ('/' :: a) ++ '.' :: (b ++ ',' :: c) := by simp
    have hnd : '.' ∉ b ++ ',' :: c := by
      intro hm
      rcases List.mem_append.mp hm with h1 | h2
      · exact hdb h1
      · rcases List.mem_cons.mp h2 with he | h3
        · exact absurd he (by decide)
        · exact hdc h3
    rw [heq, goLastIndex_append _ _ _ hnd]
    simp only [List.length_cons]
    push_cast
    ring
  have hvid : goSlice ('/' :: (a ++ '.' :: (b ++ ',' :: c))) 1
      ((a.length : Int) + (b.length : Int) + 2) = some (a ++ '.' :: b) := by
    have heq : ('/' :: (a ++ '.' :: (b ++ ',' :: c))) =
        ('/' :: ((a ++ '.' :: b) ++ ',' :: c)) := by simp
    have hlen : (a.length : Int) + (b.length : Int) + 2 =
        (((a ++ '.' :: b).length : Nat) : Int) + 1 := by
      simp only [List.length_append, List.length_cons]
      push_cast
      ring
    rw [heq, hlen]
    exact goSlice_prefix_inner '/' (a ++ '.' :: b) (',' :: c)
  have hfid0 : goSliceFrom ('/' :: (a ++ '.' :: (b ++ ',' :: c)))
      ((a.length : Int) + (b.length : Int) + 2 + 1) = some c := by
    have heq : ('/' :: (a ++ '.' :: (b ++ ',' :: c))) =
        (('/' :: (a ++ '.' :: b)) ++ [',']) ++ c := by simp
    have hlen : (((('/' :: (a ++ '.' :: b)) ++ [',']).length : Nat) : Int) =
        (a.length : Int) + (b.length : Int) + 2 + 1 := by
      simp only [List.length_append, List.length_cons, List.length_nil]
      push_cast
      ring
    rw [heq, ← hlen, goSliceFrom_append]
  have hnone : goSlice ('/' :: (a ++ '.' :: (b ++ ',' :: c)))
      ((a.length : Int) + (b.length : Int) + 2 + 1) ((a.length : Int) + 1) =
      none := by
    rw [goSlice, if_neg]
    intro hg
    omega
  have hpos : ¬((a.length : Int) + (b.length : Int) + 2 ≤ 0) := by omega
  have hdpos : (0 : Int) < (a.length : Int) + 1 := by omega
  simp only [parseURLPath, hcount, hsep, htail, hcomma, hdot, zero_add, hvid,
    hfid0, hnone, if_neg hpos, if_pos hdpos]
  norm_num

/-- C8 (counterexample): on the two-slash path `/3/.gz` the fid is `.gz`,
which contains a dot whose suffix is the nonempty `.gz`, yet the code returns
fid `.gz` whole with an empty ext (the split happens only when the last dot
sits at a positive index), refuting the claim that any suffix after the last
dot in fid is split into ext. -/
theorem C8_counterexample :
    parseURLPath c8BadPath =
      some ⟨[('3' : Char)], ['.', 'g', 'z'], [], [], false⟩ ∧
    goLastIndex ['.', 'g', 'z'] '.' = 0 ∧
    (['.', 'g', 'z'] : List Char).drop 0 ≠ ([] : List Char) := by decide

/-- C8 (amended): `parseURLPath` behaves as follows.  On `/<vid>/<fid>` it
returns that vid and fid, splitting the suffix from the last dot of fid into
ext only when that dot sits at a positive index in fid (a fid whose only dot
is its first character is returned whole with empty ext).  On a single-segment
path with no comma it returns the whole segment as vid with isVolumeIdOnly
true and empty fid.  On a single-segment path with a comma, vid is the part
before the last comma; with no dot in the path, fid is everything after the
comma; when the path's last dot lies strictly after that comma, fid is the
part between comma and dot and ext runs from the dot; and when the last dot
lies at or before the comma the function aborts with an out-of-range slice
panic. -/
theorem C8_amended :
    (∀ vid fid : List Char, '/' ∉ vid → '/' ∉ fid →
      parseURLPath ('/' :: (vid ++ '/' :: fid)) =
        some ⟨vid,
          if 0 < goLastIndex fid '.' then fid.take (goLastIndex fid '.').toNat
          else fid,
          [],
          if 0 < goLastIndex fid '.' then fid.drop (goLastIndex fid '.').toNat
          else [],
          false⟩) ∧
    (∀ seg : List Char, '/' ∉ seg → ',' ∉ seg →
      parseURLPath ('/' :: seg) = some ⟨seg, [], [], [], true⟩) ∧
    (∀ p q : List Char, '/' ∉ p → '/' ∉ q → ',' ∉ q → '.' ∉ p → '.' ∉ q →
      parseURLPath ('/' :: (p ++ ',' :: q)) = some ⟨p, q, [], [], false⟩) ∧
    (∀ p q1 q2 : List Char, '/' ∉ p → '/' ∉ q1 → '/' ∉ q2 → ',' ∉ q1 →
      ',' ∉ q2 → '.' ∉ q2 →
      parseURLPath ('/' :: (p ++ ',' :: (q1 ++ '.' :: q2))) =
        some ⟨p, q1, [], '.' :: q2, false⟩) ∧
    (∀ a b c : List Char, '/' ∉ a → '/' ∉ b → '/' ∉ c → '.' ∉ b → '.' ∉ c →
      ',' ∉ c →
      parseURLPath ('/' :: (a ++ '.' :: (b ++ ',' :: c))) = none) :=
  ⟨parseURLPath_two_slash, parseURLPath_single_plain,
    parseURLPath_single_comma_no_dot, parseURLPath_single_comma_dot,
    parseURLPath_single_dot_before_comma⟩

/-- C8 witness: the amended two-slash clause evaluated on `/3/01.png`. -/
theorem C8_amended_witness :
    parseURLPath c8GoodPath =
      some ⟨[('3' : Char)], ['0', '1'], [], ['.', 'p', 'n', 'g'], false⟩ := by
  have h := C8_amended.1 [('3' : Char)] ['0', '1', '.', 'p', 'n', 'g']
    (by decide) (by decide)
  exact h.trans (by decide)

/-- C10 witness: a 5×5 source with a 10×10 request is returned unchanged. -/
theorem C10_witness : (Resized c10Env c10Ext [1] 10 10).fst = [1] :=
  (C10_resized_identity c10Env c10Ext [1] 10 10).2.2.1 ⟨5, 5, 0⟩
    (by decide) (by decide)

end Seaweed
